/-
Verification of the VoxParaguay 2026 real-time core:
the Redis-backed agent manager (presence, Least-Connections assignment,
release) from backend/app/utils/redis_agent_manager.py, and the sentiment
aggregation service from backend/app/services/sentiment_service.py.

The Redis store is shallowly embedded as explicit state: hashes and
counters become association lists keyed by string, Redis sets become
insertion-ordered duplicate-free lists (modelling the iteration /
discovery order that the source's set scans observe), timestamps become a
Nat tick counter threaded through the state, and published pub/sub events
are accumulated in a list.  Python floats are modelled as rationals.
-/
import Mathlib

namespace VoxPY

/-! ### Association-list primitives (Redis string-keyed hashes and counters) -/

/-- Lookup in an association list (Redis GET / HGET of a whole modelled hash). -/
def getK {α : Type} : List (String × α) → String → Option α
  | [], _ => none
  | (k, v) :: rest, key => if k = key then some v else getK rest key

/-- Update-or-insert in an association list (Redis SET / HSET). -/
def setK {α : Type} : List (String × α) → String → α → List (String × α)
  | [], key, v => [(key, v)]
  | (k, w) :: rest, key, v =>
      if k = key then (key, v) :: rest else (k, w) :: setK rest key v

theorem getK_setK_self {α : Type} (l : List (String × α)) (k : String) (v : α) :
    getK (setK l k v) k = some v := by
  induction l with
  | nil => simp [getK, setK]
  | cons p rest ih =>
      obtain ⟨k0, w⟩ := p
      by_cases h : k0 = k
      · simp [getK, setK, h]
      · simp [getK, setK, h, ih]

theorem getK_setK_ne {α : Type} (l : List (String × α)) (k k' : String) (v : α)
    (h : k ≠ k') : getK (setK l k v) k' = getK l k' := by
  induction l with
  | nil => simp [getK, setK, h]
  | cons p rest ih =>
      obtain ⟨k0, w⟩ := p
      by_cases h0 : k0 = k
      · subst h0
        simp [getK, setK, h]
      · by_cases h1 : k0 = k'
        · subst h1
          simp [getK, setK, h0, Ne.symm h]
        · simp [getK, setK, h0, h1, ih]

/-- Redis SADD on an insertion-ordered set: append when absent. -/
def saddL (l : List String) (a : String) : List String :=
  if a ∈ l then l else l ++ [a]

/-- Redis SREM: drop the element. -/
def sremL (l : List String) (a : String) : List String :=
  l.filter (fun x => x ≠ a)

theorem mem_saddL {l : List String} {a x : String} :
    x ∈ saddL l a ↔ x ∈ l ∨ x = a := by
  unfold saddL
  by_cases h : a ∈ l
  · simp only [if_pos h]
    constructor
    · exact fun hx => Or.inl hx
    · rintro (hx | rfl) <;> [exact hx; exact h]
  · simp [if_neg h, List.mem_append]

theorem mem_sremL {l : List String} {a x : String} :
    x ∈ sremL l a ↔ x ∈ l ∧ x ≠ a := by
  unfold sremL
  simp [List.mem_filter]

/-! ### Agent data model (redis_agent_manager.py) -/

/-- Agent availability statuses; the Python enum values are the strings
"disponible", "ocupado", "descanso", "desconectado". -/
inductive AgentStatus : Type
  | AVAILABLE
  | BUSY
  | BREAK
  | OFFLINE
deriving DecidableEq, Repr

/-- The per-agent Redis hash written by agent_login (key agent:{id}). -/
structure AgentHash : Type where
  id : String
  name : String
  status : AgentStatus
  region : Option String
  skills : List String
  currentConnections : Int
  loginTime : Nat
  lastActivity : Nat
  logoutTime : Option Nat
deriving DecidableEq, Repr

/-- The conversation:{id} hash.  Fields are optional because Redis HSET
creates the hash with only the written fields (release_conversation on an
unknown conversation creates a hash holding only status/completed_at). -/
structure ConvHash : Type where
  agentId : Option String
  channel : Option String
  assignedAt : Option Nat
  status : Option String
  completedAt : Option Nat
deriving DecidableEq, Repr

/-- Events published on the agent:events channel. -/
inductive AgentEvent : Type
  | login (agentId agentName : String) (ts : Nat)
  | logout (agentId : String) (agentName : Option String) (ts : Nat)
  | statusChange (agentId : String) (status : AgentStatus) (ts : Nat)
  | conversationAssigned (agentId conversationId channel : String) (ts : Nat)
  | conversationReleased (agentId conversationId : String) (ts : Nat)
deriving DecidableEq, Repr

/-- The slice of the Redis keyspace the agent manager touches:
agent:{id} hashes, agent:status:{id} strings, agent:load:{id} counters,
agent:metrics:{id} (conversations_completed field), the agents:online set,
agents:region:{region} sets, conversation:{id} hashes, and the published
events.  time is the Nat-tick model of datetime.now(). -/
structure Store : Type where
  agents : List (String × AgentHash)
  statusKeys : List (String × AgentStatus)
  loads : List (String × Int)
  metrics : List (String × Nat)
  online : List String
  regions : List (String × List String)
  conversations : List (String × ConvHash)
  events : List AgentEvent
  time : Nat
deriving DecidableEq, Repr

def initStore : Store :=
  { agents := [], statusKeys := [], loads := [], metrics := [], online := []
    regions := [], conversations := [], events := [], time := 0 }

/-- agent:load:{id} read as int(... or 0): a missing counter reads 0. -/
def loadOf (s : Store) (a : String) : Int :=
  (getK s.loads a).getD 0

/-- conversations_completed field of agent:metrics:{id}; HINCRBY starts at 0. -/
def metricOf (s : Store) (a : String) : Nat :=
  (getK s.metrics a).getD 0

/-- The agent:status:{id} key (None when never written). -/
def statusKeyOf (s : Store) (a : String) : Option AgentStatus :=
  getK s.statusKeys a

/-- json.loads(agent_data.get("skills", "[]")): missing hash yields []. -/
def agentSkills (s : Store) (a : String) : List String :=
  match getK s.agents a with
  | some h => h.skills
  | none => []

/-- Members of agents:region:{region} (missing set reads empty). -/
def regionMembers (s : Store) (rg : String) : List String :=
  (getK s.regions rg).getD []

/-- status field of conversation:{id}. -/
def convStatusOf (s : Store) (c : String) : Option String :=
  match getK s.conversations c with
  | some h => h.status
  | none => none

/-- Advance the modelled clock after an operation completes. -/
def tick (s : Store) : Store :=
  { s with time := s.time + 1 }

/-- Append a published agent:events message. -/
def pushEvent (s : Store) (e : AgentEvent) : Store :=
  { s with events := s.events ++ [e] }

/-! ### Presence operations (agent_login / agent_logout / update_agent_status) -/

/-- RedisAgentManager.agent_login.  Builds the agent hash (skills default
to ["voice", "whatsapp"] via the Python `skills or [...]` truthiness, so
None and [] both take the default), stores it, writes the status key,
resets the load counter to 0, adds the agent to the online set and (when
the region string is truthy) to its region set, and publishes a login
event.  There is no validation of agent_id. -/
def agentLogin (s : Store) (agentId agentName : String)
    (region : Option String) (skills : Option (List String)) :
    Store × AgentHash :=
  let now := s.time
  let sk : List String :=
    match skills with
    | some l => if l = [] then ["voice", "whatsapp"] else l
    | none => ["voice", "whatsapp"]
  let h : AgentHash :=
    { id := agentId, name := agentName, status := .AVAILABLE, region := region
      skills := sk, currentConnections := 0, loginTime := now
      lastActivity := now, logoutTime := none }
  let s1 := { s with agents := setK s.agents agentId h }
  let s2 := { s1 with statusKeys := setK s1.statusKeys agentId .AVAILABLE }
  let s3 := { s2 with loads := setK s2.loads agentId 0 }
  let s4 := { s3 with online := saddL s3.online agentId }
  let s5 :=
    match region with
    | some rg =>
        if rg = "" then s4
        else { s4 with regions := setK s4.regions rg (saddL (regionMembers s4 rg) agentId) }
    | none => s4
  (tick (pushEvent s5 (.login agentId agentName now)), h)

/-- RedisAgentManager.agent_logout.  Returns false without mutation when
the agent hash is absent; otherwise sets the status key and hash status to
OFFLINE, records logout_time, removes the agent from the online set and
from the region set named by the stored hash (when truthy), and publishes
a logout event. -/
def agentLogout (s : Store) (agentId : String) : Store × Bool :=
  match getK s.agents agentId with
  | none => (s, false)
  | some h =>
      let now := s.time
      let s1 := { s with statusKeys := setK s.statusKeys agentId .OFFLINE }
      let h1 := { h with status := AgentStatus.OFFLINE, logoutTime := some now }
      let s2 := { s1 with agents := setK s1.agents agentId h1 }
      let s3 := { s2 with online := sremL s2.online agentId }
      let s4 :=
        match h.region with
        | some rg =>
            if rg = "" then s3
            else { s3 with regions := setK s3.regions rg (sremL (regionMembers s3 rg) agentId) }
        | none => s3
      (tick (pushEvent s4 (.logout agentId (some h.name) now)), true)

/-- RedisAgentManager.update_agent_status.  Returns false when the agent
hash does not exist; otherwise writes the status key, updates the hash's
status and last_activity fields, and publishes a status_change event.
Note that it never touches the online or region sets. -/
def updateAgentStatus (s : Store) (agentId : String) (st : AgentStatus) :
    Store × Bool :=
  match getK s.agents agentId with
  | none => (s, false)
  | some h =>
      let now := s.time
      let s1 := { s with statusKeys := setK s.statusKeys agentId st }
      let h1 := { h with status := st, lastActivity := now }
      let s2 := { s1 with agents := setK s1.agents agentId h1 }
      (tick (pushEvent s2 (.statusChange agentId st now)), true)

/-! ### Least-Connections assignment (assign_conversation) -/

/-- Candidate pool choice of assign_conversation: the region set when the
region argument is truthy and its set is non-empty, otherwise the full
online set (the fallback). -/
def poolOf (s : Store) (region : Option String) : List String :=
  match region with
  | some rg =>
      if rg = "" then s.online
      else
        let ra := regionMembers s rg
        if ra = [] then s.online else ra
  | none => s.online

/-- The per-agent filter step of the candidate loop: skip unless the
status key equals AVAILABLE; when required_skills is truthy, skip unless
every required skill is in the agent hash's skill list; otherwise yield
the agent paired with its current load. -/
def candidateOf (s : Store) (req : Option (List String)) (a : String) :
    Option (String × Int) :=
  match statusKeyOf s a with
  | none => none
  | some st =>
      if st = AgentStatus.AVAILABLE then
        match req with
        | some rs =>
            if rs = [] then some (a, loadOf s a)
            else if rs.all (fun sk => (agentSkills s a).contains sk) then
              some (a, loadOf s a)
            else none
        | none => some (a, loadOf s a)
      else none

/-- The candidate list assembled by assign_conversation's loop. -/
def candidatesOf (s : Store) (region : Option String)
    (req : Option (List String)) : List (String × Int) :=
  (poolOf s region).filterMap (candidateOf s req)

/-- Stable insertion into a load-sorted candidate list: the new element
goes in front of the first element of load ≥ its own, so elements of
equal load keep their original relative order (Python's list.sort is
stable). -/
def insertByLoad (c : String × Int) : List (String × Int) → List (String × Int)
  | [] => [c]
  | d :: rest => if c.2 ≤ d.2 then c :: d :: rest else d :: insertByLoad c rest

/-- Stable sort by load, modelling candidates.sort(key=lambda x: x[1]). -/
def sortByLoad : List (String × Int) → List (String × Int)
  | [] => []
  | c :: rest => insertByLoad c (sortByLoad rest)

/-- The leftmost minimum-load candidate: the element a stable sort by load
places first.  This is the specification-side characterisation of the
source's candidates.sort(...); candidates[0] selection. -/
def firstMin : List (String × Int) → Option (String × Int)
  | [] => none
  | c :: rest =>
      match firstMin rest with
      | none => some c
      | some m => if c.2 ≤ m.2 then some c else some m

/-- State mutations performed once an agent is selected: INCR the load
counter, refresh last_activity on the agent hash, create the
conversation:{id} hash with status active, publish the assignment event. -/
def assignApply (s : Store) (conversationId channel agentId : String) : Store :=
  let now := s.time
  let newLoad := loadOf s agentId + 1
  let s1 := { s with loads := setK s.loads agentId newLoad }
  let s2 :=
    match getK s1.agents agentId with
    | some h => { s1 with agents := setK s1.agents agentId { h with lastActivity := now } }
    | none => s1
  let conv : ConvHash :=
    { agentId := some agentId, channel := some channel
      assignedAt := some now, status := some "active", completedAt := none }
  let s3 := { s2 with conversations := setK s2.conversations conversationId conv }
  tick (pushEvent s3 (.conversationAssigned agentId conversationId channel now))

/-- RedisAgentManager.assign_conversation: pick the candidate pool (with
region fallback), filter by availability and skills, stable-sort the
candidates by load, take the head, then apply the assignment mutations.
Returns the selected agent id (the source returns that agent's hash). -/
def assignConversation (s : Store) (conversationId channel : String)
    (region : Option String) (req : Option (List String)) :
    Store × Option String :=
  let pool := poolOf s region
  if pool = [] then (s, none)
  else
    let candidates := candidatesOf s region req
    if candidates = [] then (s, none)
    else
      match (sortByLoad candidates).head? with
      | none => (s, none)
      | some sel => (assignApply s conversationId channel sel.1, some sel.1)

/-! ### Release (release_conversation) -/

/-- HSET of status/completed_at on conversation:{id}; Redis HSET creates
the hash (with only those fields) when it does not yet exist. -/
def completeConv (s : Store) (conversationId : String) (now : Nat) : Store :=
  let h :=
    match getK s.conversations conversationId with
    | some h0 => { h0 with status := some "completed", completedAt := some now }
    | none =>
        { agentId := none, channel := none, assignedAt := none
          status := some "completed", completedAt := some now }
  { s with conversations := setK s.conversations conversationId h }

/-- _update_agent_metrics: HINCRBY conversations_completed by 1. -/
def incrMetric (s : Store) (agentId : String) : Store :=
  { s with metrics := setK s.metrics agentId (metricOf s agentId + 1) }

/-- RedisAgentManager.release_conversation: DECR the load counter only
when it is currently positive, mark the conversation completed, increment
the lifetime conversations_completed metric, publish the release event,
and return True unconditionally. -/
def releaseConversation (s : Store) (conversationId agentId : String) :
    Store × Bool :=
  let now := s.time
  let current := loadOf s agentId
  let s1 :=
    if current > 0 then { s with loads := setK s.loads agentId (current - 1) } else s
  let s2 := completeConv s1 conversationId now
  let s3 := incrMetric s2 agentId
  (tick (pushEvent s3 (.conversationReleased agentId conversationId now)), true)

/-! ### Monitoring and cleanup -/

/-- get_agent_status: the agent hash with current_connections replaced by
the live load counter. -/
def getAgentStatus (s : Store) (agentId : String) : Option AgentHash :=
  match getK s.agents agentId with
  | some h => some { h with currentConnections := loadOf s agentId }
  | none => none

/-- get_all_agents_status (the listOnline operation): the hashes of the
members of the online set, skipping ids with no stored hash. -/
def getAllAgentsStatus (s : Store) : List AgentHash :=
  s.online.filterMap (getAgentStatus s)

/-- The loop body of cleanup_stale_agents over a snapshot of the online
set: log out every agent whose last_activity is older than the cutoff. -/
def cleanupGo (cutoff : Int) : Store → List String → Store × Nat
  | s, [] => (s, 0)
  | s, a :: rest =>
      match getK s.agents a with
      | none => cleanupGo cutoff s rest
      | some h =>
          if (h.lastActivity : Int) < cutoff then
            let s' := (agentLogout s a).1
            let res := cleanupGo cutoff s' rest
            (res.1, res.2 + 1)
          else cleanupGo cutoff s rest

/-- RedisAgentManager.cleanup_stale_agents (the reapStale operation). -/
def cleanupStaleAgents (s : Store) (timeoutMinutes : Nat) : Store × Nat :=
  cleanupGo ((s.time : Int) - (timeoutMinutes : Int)) s s.online

/-! ### Operation sequences over the agent store -/

/-- The inbound operations of the presence/assignment engine. -/
inductive Op : Type
  | login (agentId agentName : String) (region : Option String) (skills : Option (List String))
  | logout (agentId : String)
  | setStatus (agentId : String) (st : AgentStatus)
  | assign (conversationId channel : String) (region : Option String) (req : Option (List String))
  | release (conversationId agentId : String)
  | reap (timeoutMinutes : Nat)
deriving DecidableEq, Repr

def step (s : Store) : Op → Store
  | .login a n r sk => (agentLogin s a n r sk).1
  | .logout a => (agentLogout s a).1
  | .setStatus a st => (updateAgentStatus s a st).1
  | .assign c ch r req => (assignConversation s c ch r req).1
  | .release c a => (releaseConversation s c a).1
  | .reap t => (cleanupStaleAgents s t).1

def run (s : Store) (ops : List Op) : Store :=
  ops.foldl step s

/-! ### Sentiment service data model (sentiment_service.py) -/

/-- Opaque metadata attached to a sentiment sample. -/
abbrev Meta := List (String × String)

/-- The known region codes (PARAGUAY_DEPARTMENTS). -/
def PARAGUAY_DEPARTMENTS : List String :=
  ["PY-ASU", "PY-1", "PY-2", "PY-3", "PY-4", "PY-5", "PY-6", "PY-7",
   "PY-8", "PY-9", "PY-10", "PY-11", "PY-12", "PY-13", "PY-14",
   "PY-15", "PY-16", "PY-19"]

/-- SentimentService.MAX_HISTORY. -/
def MAX_HISTORY : Nat := 100

/-- One entry of a region's sentiment:history:{dept} list. -/
structure Sample : Type where
  score : ℚ
  timestamp : Nat
  metadata : Option Meta
deriving DecidableEq, Repr

/-- The sentiment_update payload returned by record_sentiment and
published on sentiment:updates. -/
structure UpdateData : Type where
  departmentId : String
  sentimentScore : ℚ
  average : ℚ
  totalCount : Nat
  timestamp : Nat
  metadata : Option Meta
deriving DecidableEq, Repr

/-- The slice of the Redis keyspace the sentiment service touches:
sentiment:dept:{d}:sum counters, sentiment:dept:{d}:count counters, the
sentiment:current hash of denormalized averages, the per-region
sentiment:history:{d} lists (newest first), and the published updates. -/
structure SentState : Type where
  sums : List (String × ℚ)
  counts : List (String × Nat)
  current : List (String × ℚ)
  histories : List (String × List Sample)
  updates : List UpdateData
  time : Nat
deriving DecidableEq, Repr

def initSent : SentState :=
  { sums := [], counts := [], current := [], histories := [], updates := [], time := 0 }

/-- sentiment:dept:{d}:sum read with a 0 default (INCRBYFLOAT start). -/
def sumOf (s : SentState) (d : String) : ℚ :=
  (getK s.sums d).getD 0

/-- sentiment:dept:{d}:count read with a 0 default (INCR start). -/
def countOf (s : SentState) (d : String) : Nat :=
  (getK s.counts d).getD 0

/-- The denormalized sentiment:current cache entry for a region. -/
def currentOf (s : SentState) (d : String) : Option ℚ :=
  getK s.current d

/-- The stored history list for a region, newest first. -/
def histOf (s : SentState) (d : String) : List Sample :=
  (getK s.histories d).getD []

/-- Python round(x, 4): round to 4 decimal digits (model floats as ℚ). -/
def round4 (q : ℚ) : ℚ :=
  (round (q * 10000) : ℤ) / 10000

/-- Redis LRANGE semantics on a modelled list: negative indices count
from the end, the stop index is clamped to the last element, and an empty
range yields the empty list. -/
def lrange {α : Type} (l : List α) (start stop : Int) : List α :=
  let n : Int := (l.length : Int)
  let s0 : Int := if start < 0 then max (n + start) 0 else start
  let e0 : Int := if stop < 0 then n + stop else stop
  let e1 : Int := min e0 (n - 1)
  if s0 > e1 then [] else (l.take (e1.toNat + 1)).drop s0.toNat

/-- SentimentService.record_sentiment.  Validation happens before any
store access: an unknown department id or an out-of-range score raises
ValueError (modelled as Except.error with the state passed through
untouched).  On the valid path it increments the region's sum and count,
recomputes the average rounded to 4 decimals, refreshes the
sentiment:current cache, LPUSHes the sample and LTRIMs the history to
MAX_HISTORY, publishes the update payload, and returns it. -/
def recordSentiment (s : SentState) (departmentId : String)
    (sentimentScore : ℚ) (metadata : Option Meta) :
    SentState × Except String UpdateData :=
  if departmentId ∉ PARAGUAY_DEPARTMENTS then
    (s, .error ("Invalid department ID: " ++ departmentId))
  else if ¬(-1 ≤ sentimentScore ∧ sentimentScore ≤ 1) then
    (s, .error "Sentiment score must be between -1 and 1")
  else
    let now := s.time
    let newSum := sumOf s departmentId + sentimentScore
    let newCount := countOf s departmentId + 1
    let s1 := { s with sums := setK s.sums departmentId newSum }
    let s2 := { s1 with counts := setK s1.counts departmentId newCount }
    let newAverage :=
      round4 (if newCount > 0 then newSum / (newCount : ℚ) else 0)
    let s3 := { s2 with current := setK s2.current departmentId newAverage }
    let sample : Sample :=
      { score := sentimentScore, timestamp := now, metadata := metadata }
    let newHist := (sample :: histOf s departmentId).take MAX_HISTORY
    let s4 := { s3 with histories := setK s3.histories departmentId newHist }
    let upd : UpdateData :=
      { departmentId := departmentId, sentimentScore := sentimentScore
        average := newAverage, totalCount := newCount
        timestamp := now, metadata := metadata }
    let s5 := { s4 with updates := s4.updates ++ [upd] }
    ({ s5 with time := s5.time + 1 }, .ok upd)

/-- SentimentService.get_department_history: LRANGE 0 (limit - 1) on the
region's history list (the JSON decode of each entry is the identity in
this model). -/
def getDepartmentHistory (s : SentState) (departmentId : String)
    (limit : Int) : List Sample :=
  lrange (histOf s departmentId) 0 (limit - 1)

/-- SentimentService.get_department_sentiment: average is None when the
count is zero, otherwise sum / count rounded to 4 decimals. -/
def getDepartmentSentiment (s : SentState) (departmentId : String) :
    Option ℚ × Nat :=
  let total := sumOf s departmentId
  let count := countOf s departmentId
  (if count > 0 then some (round4 (total / (count : ℚ))) else none, count)

/-! ### Stated invariants and restricted operation sequences -/

/-- Every agent's load counter is non-negative. -/
def LoadsNonneg (s : Store) : Prop :=
  ∀ a, 0 ≤ loadOf s a

/-- Membership in the online set agrees with the stored status key:
an agent is in the online index exactly when its status key exists and is
not OFFLINE. -/
def OnlineConsistent (s : Store) : Prop :=
  ∀ a, (a ∈ s.online ↔
    ∃ st, statusKeyOf s a = some st ∧ st ≠ AgentStatus.OFFLINE)

/-- Restriction on a single operation relative to the current state:
setStatus is only used with a non-OFFLINE status on an agent currently in
the online index (all other operations are unrestricted). -/
def goodOp (s : Store) : Op → Prop
  | .setStatus a st => st ≠ AgentStatus.OFFLINE ∧ a ∈ s.online
  | _ => True

/-- Every operation of the sequence is good in the state it runs in. -/
def GoodRun : Store → List Op → Prop
  | _, [] => True
  | s, op :: rest => goodOp s op ∧ GoodRun (step s op) rest

/-! ### Concrete stores used by witnesses and counterexamples -/

/-- Scenario A store: a single login in region Central with skill voice. -/
def c1store : Store :=
  (agentLogin initStore "a1" "Ana" (some "Central") (some ["voice"])).1

/-- One login and one assignment; base state for the double-release runs. -/
def c4base : Store :=
  run initStore [.login "a1" "Ana" none none, .assign "c1" "voice" none none]

/-- State after releasing conversation c1 once. -/
def c4once : Store := (releaseConversation c4base "c1" "a1").1

/-- State after releasing conversation c1 a second time. -/
def c4twice : Store := (releaseConversation c4once "c1" "a1").1

/-- A single login with no region. -/
def c5base : Store := (agentLogin initStore "a1" "Ana" none none).1

/-- The same agent's status then set to OFFLINE through setStatus. -/
def c5off : Store := (updateAgentStatus c5base "a1" AgentStatus.OFFLINE).1

/-- A good operation sequence: login, a non-OFFLINE status change on an
online agent, then logout. -/
def c5ops : List Op :=
  [.login "a1" "Ana" none none, .setStatus "a1" AgentStatus.BUSY, .logout "a1"]

/-- Scenario D store: agent a3 online in Central, nobody in Itapúa. -/
def c6store : Store :=
  (agentLogin initStore "a3" "Cari" (some "Central") none).1

/-- Scenario C first step: one sample of 0.5 recorded for PY-ASU. -/
def c7s1 : SentState := (recordSentiment initSent "PY-ASU" (1/2) none).1

/-- A login with the empty string as agent id. -/
def c8store : Store := (agentLogin initStore "" "Nadia" none none).1

/-- A sentiment store holding exactly one PY-ASU history entry. -/
def c9store : SentState := (recordSentiment initSent "PY-ASU" (1/2) none).1

/-- A login with skills omitted (None). -/
def c10store : Store := (agentLogin initStore "a9" "Noa" none none).1

/-! ### Lemmas about the stable sort used by assign_conversation -/

theorem insertByLoad_head (c : String × Int) (l : List (String × Int)) :
    (insertByLoad c l).head? =
      some (match l.head? with
            | none => c
            | some d => if c.2 ≤ d.2 then c else d) := by
  cases l with
  | nil => rfl
  | cons d rest => by_cases h : c.2 ≤ d.2 <;> simp [insertByLoad, h]

theorem sortByLoad_head : ∀ l : List (String × Int),
    (sortByLoad l).head? = firstMin l
  | [] => rfl
  | c :: rest => by
      rw [sortByLoad, insertByLoad_head, sortByLoad_head rest]
      cases hf : firstMin rest with
      | none => simp [firstMin, hf]
      | some m => by_cases h : c.2 ≤ m.2 <;> simp [firstMin, hf, h]

theorem firstMin_ne_none (c : String × Int) (l : List (String × Int)) :
    firstMin (c :: l) ≠ none := by
  rw [firstMin]
  cases firstMin l with
  | none => simp
  | some m => by_cases h : c.2 ≤ m.2 <;> simp [h]

theorem firstMin_mem : ∀ {l : List (String × Int)} {m : String × Int},
    firstMin l = some m → m ∈ l
  | [], m, h => by simp [firstMin] at h
  | c :: rest, m, h => by
      rw [firstMin] at h
      cases hf : firstMin rest with
      | none =>
          rw [hf] at h
          cases h
          exact List.mem_cons_self _ _
      | some m' =>
          simp only [hf] at h
          by_cases hc : c.2 ≤ m'.2
          · rw [if_pos hc] at h
            cases h
            exact List.mem_cons_self _ _
          · rw [if_neg hc] at h
            cases h
            exact List.mem_cons_of_mem _ (firstMin_mem hf)

theorem firstMin_le : ∀ {l : List (String × Int)} {m : String × Int},
    firstMin l = some m → ∀ c ∈ l, m.2 ≤ c.2
  | [], m, h => by simp [firstMin] at h
  | c :: rest, m, h => by
      rw [firstMin] at h
      cases hf : firstMin rest with
      | none =>
          rw [hf] at h
          cases h
          intro x hx
          rcases List.mem_cons.1 hx with rfl | hx'
          · exact le_refl _
          · cases rest with
            | nil => simp at hx'
            | cons d r => exact absurd hf (firstMin_ne_none d r)
      | some m' =>
          simp only [hf] at h
          by_cases hc : c.2 ≤ m'.2
          · rw [if_pos hc] at h
            cases h
            intro x hx
            rcases List.mem_cons.1 hx with rfl | hx'
            · exact le_refl _
            · exact le_trans hc (firstMin_le hf x hx')
          · rw [if_neg hc] at h
            cases h
            intro x hx
            rcases List.mem_cons.1 hx with rfl | hx'
            · exact le_of_lt (lt_of_not_le hc)
            · exact firstMin_le hf x hx'

/-- Everything the candidate filter guarantees about an element it
produced: the pair is the agent with its current load, the status key
read AVAILABLE, and every required skill is in the agent's skill list. -/
theorem candidateOf_some {s : Store} {req : Option (List String)}
    {a : String} {p : String × Int} (h : candidateOf s req a = some p) :
    p = (a, loadOf s a) ∧ statusKeyOf s a = some AgentStatus.AVAILABLE ∧
      ∀ rs, req = some rs →
        rs.all (fun sk => (agentSkills s a).contains sk) = true := by
  obtain ⟨p1, p2⟩ := p
  cases hst : statusKeyOf s a with
  | none => simp [candidateOf, hst] at h
  | some st =>
      by_cases hav : st = AgentStatus.AVAILABLE
      · subst hav
        cases req with
        | none =>
            simp [candidateOf, hst] at h
            obtain ⟨rfl, rfl⟩ := h
            exact ⟨rfl, rfl, by intro rs hrs; cases hrs⟩
        | some rs =>
            by_cases hrs : rs = []
            · subst hrs
              simp [candidateOf, hst] at h
              obtain ⟨rfl, rfl⟩ := h
              exact ⟨rfl, rfl, by intro rs0 hrs0; cases hrs0; rfl⟩
            · by_cases hall : rs.all (fun sk => (agentSkills s a).contains sk) = true
              · simp [candidateOf, hst, hrs, hall] at h
                obtain ⟨hsk, rfl, rfl⟩ := h
                exact ⟨rfl, rfl, by intro rs0 hrs0; cases hrs0; exact hall⟩
              · simp [candidateOf, hst, hrs, hall] at h
                exact absurd (by simpa using h.1) hall
      · simp [candidateOf, hst, hav] at h

/-- If assign_conversation returns an agent, that agent is the head of
the load-sorted candidate list. -/
theorem assign_some_elim {s : Store} {cid ch : String} {region : Option String}
    {req : Option (List String)} {aid : String}
    (h : (assignConversation s cid ch region req).2 = some aid) :
    ∃ sel, (sortByLoad (candidatesOf s region req)).head? = some sel ∧
      sel.1 = aid := by
  simp only [assignConversation] at h
  split at h
  · cases h
  · split at h
    · cases h
    · split at h
      · cases h
      · rename_i sel hhd
        exact ⟨sel, hhd, by exact Option.some.inj h⟩

/-- C1: whenever assign_conversation returns an agent rather than None,
that agent's status key read AVAILABLE, its skill list contained every
required skill, and it is the leftmost minimum-load element of the
filtered candidate list — its load is the minimum among all candidates,
ties broken by the discovery order of the candidate pool. -/
theorem assign_returns_available_least_loaded (s : Store) (cid ch : String)
    (region : Option String) (req : Option (List String)) (aid : String)
    (h : (assignConversation s cid ch region req).2 = some aid) :
    statusKeyOf s aid = some AgentStatus.AVAILABLE ∧
    (∀ rs, req = some rs →
      rs.all (fun sk => (agentSkills s aid).contains sk) = true) ∧
    firstMin (candidatesOf s region req) = some (aid, loadOf s aid) ∧
    ∀ c ∈ candidatesOf s region req, loadOf s aid ≤ c.2 := by
  obtain ⟨sel, hhd, hsel⟩ := assign_some_elim h
  rw [sortByLoad_head] at hhd
  have hmem : sel ∈ candidatesOf s region req := firstMin_mem hhd
  obtain ⟨a, ha, hca⟩ := List.mem_filterMap.1
    (show sel ∈ (poolOf s region).filterMap (candidateOf s req) from hmem)
  obtain ⟨hp, hstat, hsk⟩ := candidateOf_some hca
  subst hsel
  subst hp
  exact ⟨hstat, hsk, hhd, fun c hc => firstMin_le hhd c hc⟩

/-- Witness for C1: in Scenario A's store the assignment returns a1, and
the theorem's conclusions hold there. -/
theorem assign_returns_available_least_loaded_witness :
    ((assignConversation c1store "c1" "voice" (some "Central") (some ["voice"])).2
        = some "a1") ∧
    (statusKeyOf c1store "a1" = some AgentStatus.AVAILABLE ∧
     (∀ rs, (some ["voice"] : Option (List String)) = some rs →
       rs.all (fun sk => (agentSkills c1store "a1").contains sk) = true) ∧
     firstMin (candidatesOf c1store (some "Central") (some ["voice"]))
        = some ("a1", loadOf c1store "a1") ∧
     ∀ c ∈ candidatesOf c1store (some "Central") (some ["voice"]),
       loadOf c1store "a1" ≤ c.2) :=
  ⟨by decide,
   assign_returns_available_least_loaded c1store "c1" "voice" (some "Central")
     (some ["voice"]) "a1" (by decide)⟩

/-- C6: when the region argument is truthy but its region set is empty,
the candidate pool falls back to the full online set, so assign returns
some eligible online agent whenever one exists. -/
theorem assign_region_fallback (s : Store) (cid ch rg : String)
    (req : Option (List String)) (a : String)
    (hrg : rg ≠ "")
    (hempty : regionMembers s rg = [])
    (ha : a ∈ s.online)
    (helig : (candidateOf s req a).isSome = true) :
    ∃ aid, (assignConversation s cid ch (some rg) req).2 = some aid ∧
      aid ∈ s.online ∧ (candidateOf s req aid).isSome = true := by
  have hpool : poolOf s (some rg) = s.online := by
    simp [poolOf, hrg, hempty]
  obtain ⟨p, hp⟩ := Option.isSome_iff_exists.1 helig
  have hmem : p ∈ candidatesOf s (some rg) req := by
    rw [candidatesOf, hpool]
    exact List.mem_filterMap.2 ⟨a, ha, hp⟩
  have hcne : candidatesOf s (some rg) req ≠ [] := by
    intro h0
    rw [h0] at hmem
    exact absurd hmem (List.not_mem_nil p)
  have hpne : poolOf s (some rg) ≠ [] := by
    rw [hpool]
    intro h0
    rw [h0] at ha
    exact absurd ha (List.not_mem_nil a)
  have hfm : ∃ sel, firstMin (candidatesOf s (some rg) req) = some sel := by
    cases hl : candidatesOf s (some rg) req with
    | nil => exact absurd hl hcne
    | cons c rest =>
        cases hf : firstMin (c :: rest) with
        | none => exact absurd hf (firstMin_ne_none c rest)
        | some m => exact ⟨m, rfl⟩
  obtain ⟨sel, hsel⟩ := hfm
  have hres : (assignConversation s cid ch (some rg) req).2 = some sel.1 := by
    simp only [assignConversation]
    rw [if_neg hpne, if_neg hcne, sortByLoad_head, hsel]
  have hmemsel : sel ∈ candidatesOf s (some rg) req := firstMin_mem hsel
  obtain ⟨x, hx, hcx⟩ := List.mem_filterMap.1
    (show sel ∈ (poolOf s (some rg)).filterMap (candidateOf s req) from hmemsel)
  obtain ⟨hpx, hstx, hskx⟩ := candidateOf_some hcx
  subst hpx
  refine ⟨x, hres, ?_, ?_⟩
  · rw [hpool] at hx
    exact hx
  · rw [hcx]
    rfl

/-- Witness for C6 at Scenario D. -/
theorem assign_region_fallback_witness :
    ("Itapúa" ≠ "" ∧ regionMembers c6store "Itapúa" = [] ∧
      "a3" ∈ c6store.online ∧ (candidateOf c6store none "a3").isSome = true) ∧
    ∃ aid, (assignConversation c6store "c9" "voice" (some "Itapúa") none).2
        = some aid ∧
      aid ∈ c6store.online ∧ (candidateOf c6store none aid).isSome = true :=
  ⟨by decide,
   assign_region_fallback c6store "c9" "voice" "Itapúa" none "a3"
     (by decide) (by decide) (by decide) (by decide)⟩

/-! ### State-effect lemmas for the presence operations -/

theorem getK_setK {α : Type} (l : List (String × α)) (k a : String) (v : α) :
    getK (setK l k v) a = if k = a then some v else getK l a := by
  by_cases h : k = a
  · subst h
    simp [getK_setK_self]
  · simp [h, getK_setK_ne l k a v h]

theorem agentLogin_loads (s : Store) (a n : String) (r : Option String)
    (sk : Option (List String)) :
    ((agentLogin s a n r sk).1).loads = setK s.loads a 0 := by
  cases r with
  | none => rfl
  | some rg => by_cases he : rg = "" <;> simp [agentLogin, tick, pushEvent, he]

theorem agentLogin_statusKeys (s : Store) (a n : String) (r : Option String)
    (sk : Option (List String)) :
    ((agentLogin s a n r sk).1).statusKeys
      = setK s.statusKeys a AgentStatus.AVAILABLE := by
  cases r with
  | none => rfl
  | some rg => by_cases he : rg = "" <;> simp [agentLogin, tick, pushEvent, he]

theorem agentLogin_online (s : Store) (a n : String) (r : Option String)
    (sk : Option (List String)) :
    ((agentLogin s a n r sk).1).online = saddL s.online a := by
  cases r with
  | none => rfl
  | some rg => by_cases he : rg = "" <;> simp [agentLogin, tick, pushEvent, he]

theorem agentLogin_agents (s : Store) (a n : String) (r : Option String)
    (sk : Option (List String)) :
    ((agentLogin s a n r sk).1).agents
      = setK s.agents a (agentLogin s a n r sk).2 := by
  cases r with
  | none => rfl
  | some rg => by_cases he : rg = "" <;> simp [agentLogin, tick, pushEvent, he]

theorem agentLogin_events (s : Store) (a n : String) (r : Option String)
    (sk : Option (List String)) :
    ((agentLogin s a n r sk).1).events
      = s.events ++ [AgentEvent.login a n s.time] := by
  cases r with
  | none => rfl
  | some rg => by_cases he : rg = "" <;> simp [agentLogin, tick, pushEvent, he]

theorem agentLogout_loads (s : Store) (a : String) :
    ((agentLogout s a).1).loads = s.loads := by
  cases hg : getK s.agents a with
  | none => simp [agentLogout, tick, pushEvent, hg]
  | some hh =>
      cases hr : hh.region with
      | none => simp [agentLogout, tick, pushEvent, hg, hr]
      | some rg => by_cases he : rg = "" <;> simp [agentLogout, tick, pushEvent, hg, hr, he]

theorem agentLogout_metrics (s : Store) (a : String) :
    ((agentLogout s a).1).metrics = s.metrics := by
  cases hg : getK s.agents a with
  | none => simp [agentLogout, tick, pushEvent, hg]
  | some hh =>
      cases hr : hh.region with
      | none => simp [agentLogout, tick, pushEvent, hg, hr]
      | some rg => by_cases he : rg = "" <;> simp [agentLogout, tick, pushEvent, hg, hr, he]

theorem agentLogout_online_registered (s : Store) (a : String) (hh : AgentHash)
    (hg : getK s.agents a = some hh) :
    ((agentLogout s a).1).online = sremL s.online a := by
  cases hr : hh.region with
  | none => simp [agentLogout, tick, pushEvent, hg, hr]
  | some rg => by_cases he : rg = "" <;> simp [agentLogout, tick, pushEvent, hg, hr, he]

theorem agentLogout_statusKeys_registered (s : Store) (a : String)
    (hh : AgentHash) (hg : getK s.agents a = some hh) :
    ((agentLogout s a).1).statusKeys
      = setK s.statusKeys a AgentStatus.OFFLINE := by
  cases hr : hh.region with
  | none => simp [agentLogout, tick, pushEvent, hg, hr]
  | some rg => by_cases he : rg = "" <;> simp [agentLogout, tick, pushEvent, hg, hr, he]

theorem agentLogout_not_registered (s : Store) (a : String)
    (hg : getK s.agents a = none) :
    agentLogout s a = (s, false) := by
  simp [agentLogout, tick, pushEvent, hg]

theorem updateAgentStatus_loads (s : Store) (a : String) (st : AgentStatus) :
    ((updateAgentStatus s a st).1).loads = s.loads := by
  cases hg : getK s.agents a <;> simp [updateAgentStatus, tick, pushEvent, hg]

theorem updateAgentStatus_online (s : Store) (a : String) (st : AgentStatus) :
    ((updateAgentStatus s a st).1).online = s.online := by
  cases hg : getK s.agents a <;> simp [updateAgentStatus, tick, pushEvent, hg]

theorem updateAgentStatus_statusKeys_registered (s : Store) (a : String)
    (st : AgentStatus) (hh : AgentHash) (hg : getK s.agents a = some hh) :
    ((updateAgentStatus s a st).1).statusKeys = setK s.statusKeys a st := by
  simp [updateAgentStatus, tick, pushEvent, hg]

theorem updateAgentStatus_not_registered (s : Store) (a : String)
    (st : AgentStatus) (hg : getK s.agents a = none) :
    updateAgentStatus s a st = (s, false) := by
  simp [updateAgentStatus, tick, pushEvent, hg]

theorem assignApply_loads (s : Store) (cid ch aid : String) :
    (assignApply s cid ch aid).loads = setK s.loads aid (loadOf s aid + 1) := by
  cases hg : getK s.agents aid <;> simp [assignApply, pushEvent, tick, hg]

theorem assignApply_statusKeys (s : Store) (cid ch aid : String) :
    (assignApply s cid ch aid).statusKeys = s.statusKeys := by
  cases hg : getK s.agents aid <;> simp [assignApply, pushEvent, tick, hg]

theorem assignApply_online (s : Store) (cid ch aid : String) :
    (assignApply s cid ch aid).online = s.online := by
  cases hg : getK s.agents aid <;> simp [assignApply, pushEvent, tick, hg]

theorem assignApply_metrics (s : Store) (cid ch aid : String) :
    (assignApply s cid ch aid).metrics = s.metrics := by
  cases hg : getK s.agents aid <;> simp [assignApply, pushEvent, tick, hg]

theorem assignConversation_statusKeys (s : Store) (cid ch : String)
    (r : Option String) (req : Option (List String)) :
    ((assignConversation s cid ch r req).1).statusKeys = s.statusKeys := by
  simp only [assignConversation]
  split
  · rfl
  · split
    · rfl
    · split
      · rfl
      · exact assignApply_statusKeys s cid ch _

theorem assignConversation_online (s : Store) (cid ch : String)
    (r : Option String) (req : Option (List String)) :
    ((assignConversation s cid ch r req).1).online = s.online := by
  simp only [assignConversation]
  split
  · rfl
  · split
    · rfl
    · split
      · rfl
      · exact assignApply_online s cid ch _

theorem releaseConversation_loads (s : Store) (c a : String) :
    ((releaseConversation s c a).1).loads
      = if loadOf s a > 0 then setK s.loads a (loadOf s a - 1) else s.loads := by
  by_cases hp : loadOf s a > 0 <;>
    simp [releaseConversation, completeConv, incrMetric, pushEvent, tick, hp]

theorem releaseConversation_statusKeys (s : Store) (c a : String) :
    ((releaseConversation s c a).1).statusKeys = s.statusKeys := by
  by_cases hp : loadOf s a > 0 <;>
    simp [releaseConversation, completeConv, incrMetric, pushEvent, tick, hp]

theorem releaseConversation_online (s : Store) (c a : String) :
    ((releaseConversation s c a).1).online = s.online := by
  by_cases hp : loadOf s a > 0 <;>
    simp [releaseConversation, completeConv, incrMetric, pushEvent, tick, hp]

theorem releaseConversation_metrics (s : Store) (c a : String) :
    ((releaseConversation s c a).1).metrics
      = setK s.metrics a (metricOf s a + 1) := by
  by_cases hp : loadOf s a > 0 <;>
    simp [releaseConversation, completeConv, incrMetric, pushEvent, tick,
      metricOf, hp]

theorem releaseConversation_rtrue (s : Store) (c a : String) :
    (releaseConversation s c a).2 = true := by
  rfl

theorem convStatusOf_release (s : Store) (c a : String) :
    convStatusOf ((releaseConversation s c a).1) c = some "completed" := by
  by_cases hp : loadOf s a > 0 <;>
    cases hg : getK s.conversations c <;>
      simp [releaseConversation, completeConv, incrMetric, pushEvent, tick,
        convStatusOf, hp, hg, getK_setK_self]

theorem cleanupGo_loads (cutoff : Int) :
    ∀ (l : List String) (s : Store), ((cleanupGo cutoff s l).1).loads = s.loads
  | [], _ => rfl
  | a :: rest, s => by
      simp only [cleanupGo]
      split
      · exact cleanupGo_loads cutoff rest s
      · split
        · exact (cleanupGo_loads cutoff rest _).trans (agentLogout_loads s a)
        · exact cleanupGo_loads cutoff rest s

/-! ### C2: the load counter is never negative -/

theorem loadsNonneg_step (s : Store) (op : Op) (h : LoadsNonneg s) :
    LoadsNonneg (step s op) := by
  cases op with
  | login a n r sk =>
      intro x
      simp only [step, loadOf, agentLogin_loads, getK_setK]
      split
      · simp
      · exact h x
  | logout a =>
      intro x
      simp only [step, loadOf, agentLogout_loads]
      exact h x
  | setStatus a st =>
      intro x
      simp only [step, loadOf, updateAgentStatus_loads]
      exact h x
  | assign cid ch r req =>
      intro x
      simp only [step, assignConversation]
      split
      · exact h x
      · split
        · exact h x
        · split
          · exact h x
          · rename_i sel hhd
            simp only [loadOf, assignApply_loads, getK_setK]
            split
            · simp only [Option.getD_some]
              have := h sel.1
              simp only [loadOf] at this
              omega
            · exact h x
  | release c a =>
      intro x
      have hl := releaseConversation_loads s c a
      by_cases hp : loadOf s a > 0
      · rw [if_pos hp] at hl
        simp only [step, loadOf, hl, getK_setK]
        simp only [loadOf] at hp
        split
        · simp only [Option.getD_some]
          omega
        · exact h x
      · rw [if_neg hp] at hl
        simp only [step, loadOf, hl]
        exact h x
  | reap t =>
      intro x
      simp only [step, cleanupStaleAgents, loadOf, cleanupGo_loads]
      exact h x

theorem loadsNonneg_run : ∀ (ops : List Op) (s : Store),
    LoadsNonneg s → LoadsNonneg (run s ops)
  | [], _, h => h
  | op :: rest, s, h => loadsNonneg_run rest (step s op) (loadsNonneg_step s op h)

/-- C2: for every sequence of operations from the initial store and every
agent, the load counter is non-negative — in particular, calling release
more often than assign never drives it negative, since the decrement only
fires when the counter is positive. -/
theorem load_counter_never_negative (ops : List Op) (a : String) :
    0 ≤ loadOf (run initStore ops) a :=
  loadsNonneg_run ops initStore (fun x => by simp [loadOf, initStore, getK]) a

/-! ### C4: double release -/

theorem loadOf_release_self (s : Store) (c a : String) :
    loadOf ((releaseConversation s c a).1) a
      = if loadOf s a > 0 then loadOf s a - 1 else loadOf s a := by
  have hl := releaseConversation_loads s c a
  by_cases hp : loadOf s a > 0
  · rw [if_pos hp] at hl
    rw [if_pos hp]
    simp [loadOf, hl, getK_setK_self]
  · rw [if_neg hp] at hl
    rw [if_neg hp]
    simp [loadOf, hl]

theorem metricOf_release_self (s : Store) (c a : String) :
    metricOf ((releaseConversation s c a).1) a = metricOf s a + 1 := by
  simp [metricOf, releaseConversation_metrics, getK_setK_self]

/-- C4 counterexample: in the state with one assignment to a1, releasing
conversation c1 twice does not leave the state of a single release: the
conversations_completed metric reads 2 after the second call and 1 after
the first. -/
theorem release_twice_metric_differs :
    metricOf c4twice "a1" = 2 ∧ metricOf c4once "a1" = 1 ∧
      metricOf c4twice "a1" ≠ metricOf c4once "a1" := by
  decide

/-- C4 amended: release_conversation returns success on both calls, the
conversation status stays completed, and the load counter is never driven
negative (the decrement fires only on a positive counter, so a second
release of an agent at load zero leaves the load unchanged); but each call
increments the lifetime conversations_completed metric again (and
decrements a still-positive load again), so the state after two calls is
not identical to the state after one. -/
theorem release_twice_effects (s : Store) (c a : String) :
    (releaseConversation s c a).2 = true ∧
    (releaseConversation ((releaseConversation s c a).1) c a).2 = true ∧
    convStatusOf ((releaseConversation s c a).1) c = some "completed" ∧
    convStatusOf ((releaseConversation ((releaseConversation s c a).1) c a).1) c
      = some "completed" ∧
    metricOf ((releaseConversation ((releaseConversation s c a).1) c a).1) a
      = metricOf ((releaseConversation s c a).1) a + 1 ∧
    loadOf ((releaseConversation ((releaseConversation s c a).1) c a).1) a
      = (if loadOf ((releaseConversation s c a).1) a > 0
         then loadOf ((releaseConversation s c a).1) a - 1
         else loadOf ((releaseConversation s c a).1) a) :=
  ⟨releaseConversation_rtrue s c a, releaseConversation_rtrue _ c a,
   convStatusOf_release s c a, convStatusOf_release _ c a,
   metricOf_release_self _ c a, loadOf_release_self _ c a⟩

/-! ### C5: online-index consistency -/

/-- C5 counterexample: after a login followed by setStatus OFFLINE, the
stored status is OFFLINE yet the agent is still in the online index and
still shows up in get_all_agents_status. -/
theorem setStatus_offline_stays_in_online_index :
    statusKeyOf c5off "a1" = some AgentStatus.OFFLINE ∧
    "a1" ∈ c5off.online ∧
    ∃ h ∈ getAllAgentsStatus c5off,
      h.id = "a1" ∧ h.status = AgentStatus.OFFLINE := by
  decide

theorem onlineConsistent_login (s : Store) (a n : String) (r : Option String)
    (sk : Option (List String)) (h : OnlineConsistent s) :
    OnlineConsistent ((agentLogin s a n r sk).1) := by
  intro x
  simp only [statusKeyOf, agentLogin_online, agentLogin_statusKeys, getK_setK,
    mem_saddL]
  by_cases hx : a = x
  · subst hx
    refine ⟨fun _ => ⟨AgentStatus.AVAILABLE, by simp, by decide⟩,
      fun _ => Or.inr rfl⟩
  · have hxa : ¬x = a := fun h2 => hx h2.symm
    simp only [if_neg hx, hxa, or_false]
    exact h x

theorem onlineConsistent_logout (s : Store) (a : String)
    (h : OnlineConsistent s) : OnlineConsistent ((agentLogout s a).1) := by
  cases hg : getK s.agents a with
  | none =>
      rw [agentLogout_not_registered s a hg]
      exact h
  | some hh =>
      intro x
      simp only [statusKeyOf, agentLogout_online_registered s a hh hg,
        agentLogout_statusKeys_registered s a hh hg, getK_setK, mem_sremL]
      by_cases hx : a = x
      · subst hx
        simp
      · have hxa : x ≠ a := fun h2 => hx h2.symm
        simp only [if_neg hx, hxa, ne_eq, not_false_iff, and_true]
        exact h x

theorem onlineConsistent_setStatus (s : Store) (a : String) (st : AgentStatus)
    (hst : st ≠ AgentStatus.OFFLINE) (hon : a ∈ s.online)
    (h : OnlineConsistent s) :
    OnlineConsistent ((updateAgentStatus s a st).1) := by
  cases hg : getK s.agents a with
  | none =>
      rw [updateAgentStatus_not_registered s a st hg]
      exact h
  | some hh =>
      intro x
      simp only [statusKeyOf, updateAgentStatus_online,
        updateAgentStatus_statusKeys_registered s a st hh hg, getK_setK]
      by_cases hx : a = x
      · subst hx
        exact ⟨fun _ => ⟨st, by simp, hst⟩, fun _ => hon⟩
      · rw [if_neg hx]
        exact h x

theorem onlineConsistent_assign (s : Store) (cid ch : String)
    (r : Option String) (req : Option (List String))
    (h : OnlineConsistent s) :
    OnlineConsistent ((assignConversation s cid ch r req).1) := by
  intro x
  simp only [statusKeyOf, assignConversation_online, assignConversation_statusKeys]
  exact h x

theorem onlineConsistent_release (s : Store) (c a : String)
    (h : OnlineConsistent s) :
    OnlineConsistent ((releaseConversation s c a).1) := by
  intro x
  simp only [statusKeyOf, releaseConversation_online, releaseConversation_statusKeys]
  exact h x

theorem onlineConsistent_cleanupGo (cutoff : Int) :
    ∀ (l : List String) (s : Store), OnlineConsistent s →
      OnlineConsistent ((cleanupGo cutoff s l).1)
  | [], _, h => h
  | a :: rest, s, h => by
      simp only [cleanupGo]
      split
      · exact onlineConsistent_cleanupGo cutoff rest s h
      · split
        · exact onlineConsistent_cleanupGo cutoff rest _
            (onlineConsistent_logout s a h)
        · exact onlineConsistent_cleanupGo cutoff rest s h

theorem onlineConsistent_step (s : Store) (op : Op) (hg : goodOp s op)
    (h : OnlineConsistent s) : OnlineConsistent (step s op) := by
  cases op with
  | login a n r sk => exact onlineConsistent_login s a n r sk h
  | logout a => exact onlineConsistent_logout s a h
  | setStatus a st => exact onlineConsistent_setStatus s a st hg.1 hg.2 h
  | assign cid ch r req => exact onlineConsistent_assign s cid ch r req h
  | release c a => exact onlineConsistent_release s c a h
  | reap t => exact onlineConsistent_cleanupGo _ s.online s h

theorem onlineConsistent_goodRun : ∀ (ops : List Op) (s : Store),
    OnlineConsistent s → GoodRun s ops → OnlineConsistent (run s ops)
  | [], _, h, _ => h
  | op :: rest, s, h, hg =>
      onlineConsistent_goodRun rest (step s op)
        (onlineConsistent_step s op hg.1 h) hg.2

/-- C5 amended: for every operation sequence from the initial store in
which setStatus is only used with a non-OFFLINE status on an agent
currently in the online index, an agent is in the online index exactly
when its stored status key exists and is not OFFLINE.  Without that
restriction the claim fails: setStatus OFFLINE leaves the agent in the
index (see the counterexample). -/
theorem online_index_iff_not_offline (ops : List Op)
    (hg : GoodRun initStore ops) (a : String) :
    a ∈ (run initStore ops).online ↔
      ∃ st, statusKeyOf (run initStore ops) a = some st ∧
        st ≠ AgentStatus.OFFLINE :=
  onlineConsistent_goodRun ops initStore
    (fun x => by simp [statusKeyOf, initStore, getK]) hg a

/-- Witness for C5 amended: a login / status-change / logout sequence is
good and satisfies the equivalence. -/
theorem online_index_iff_not_offline_witness :
    GoodRun initStore c5ops ∧
    (("a1" ∈ (run initStore c5ops).online) ↔
      ∃ st, statusKeyOf (run initStore c5ops) "a1" = some st ∧
        st ≠ AgentStatus.OFFLINE) :=
  ⟨⟨trivial, ⟨by decide, by decide⟩, trivial, trivial⟩,
   online_index_iff_not_offline c5ops
     ⟨trivial, ⟨by decide, by decide⟩, trivial, trivial⟩ "a1"⟩

/-! ### C8: login with an empty agent id -/

/-- C8 counterexample: agent_login with an empty agent id does not fail —
it registers the empty id as a normal agent (AVAILABLE status key, online
index membership, stored hash) and publishes a login event. -/
theorem empty_id_login_succeeds :
    statusKeyOf c8store "" = some AgentStatus.AVAILABLE ∧
    "" ∈ c8store.online ∧
    getK c8store.agents "" ≠ none ∧
    c8store.events = [AgentEvent.login "" "Nadia" 0] := by
  decide

/-- C8 amended: agent_login performs no validation of agent_id; a login
with the empty id succeeds and registers the agent exactly like any
other: the hash is stored under the empty id, the status key reads
AVAILABLE, the load counter is zero, the empty id joins the online index,
and a login event is published. -/
theorem login_empty_id_registers (s : Store) (n : String) (r : Option String)
    (sk : Option (List String)) :
    ((agentLogin s "" n r sk).2).id = "" ∧
    getK ((agentLogin s "" n r sk).1).agents ""
      = some (agentLogin s "" n r sk).2 ∧
    statusKeyOf ((agentLogin s "" n r sk).1) "" = some AgentStatus.AVAILABLE ∧
    loadOf ((agentLogin s "" n r sk).1) "" = 0 ∧
    "" ∈ ((agentLogin s "" n r sk).1).online ∧
    AgentEvent.login "" n s.time ∈ ((agentLogin s "" n r sk).1).events := by
  refine ⟨rfl, ?_, ?_, ?_, ?_, ?_⟩
  · rw [agentLogin_agents, getK_setK_self]
  · simp [statusKeyOf, agentLogin_statusKeys, getK_setK_self]
  · simp [loadOf, agentLogin_loads, getK_setK_self]
  · rw [agentLogin_online]
    exact mem_saddL.2 (Or.inr rfl)
  · rw [agentLogin_events]
    exact List.mem_append.2 (Or.inr (List.mem_singleton.2 rfl))

/-! ### C10: default skills -/

/-- C10: when the skills argument is None or the empty list, agent_login
stores the default skill list ["voice", "whatsapp"], and the registered
agent passes assign_conversation's required-skills filter for any
required list drawn from those two skills. -/
theorem login_default_skills (s : Store) (aid n : String) (r : Option String)
    (sk : Option (List String)) (hsk : sk = none ∨ sk = some []) :
    agentSkills ((agentLogin s aid n r sk).1) aid = ["voice", "whatsapp"] ∧
    ∀ rs : List String, (∀ x ∈ rs, x = "voice" ∨ x = "whatsapp") →
      (candidateOf ((agentLogin s aid n r sk).1) (some rs) aid).isSome = true := by
  have hskills :
      agentSkills ((agentLogin s aid n r sk).1) aid = ["voice", "whatsapp"] := by
    simp only [agentSkills, agentLogin_agents, getK_setK_self]
    rcases hsk with rfl | rfl <;> rfl
  have hstat : statusKeyOf ((agentLogin s aid n r sk).1) aid
      = some AgentStatus.AVAILABLE := by
    simp [statusKeyOf, agentLogin_statusKeys, getK_setK_self]
  refine ⟨hskills, ?_⟩
  intro rs hrs
  by_cases h0 : rs = []
  · simp [candidateOf, hstat, h0]
  · have hall : rs.all
        (fun x0 => (agentSkills ((agentLogin s aid n r sk).1) aid).contains x0)
          = true := by
      rw [List.all_eq_true]
      intro x hx
      rcases hrs x hx with rfl | rfl <;> rw [hskills] <;> decide
    simp only [candidateOf, hstat, h0, hall]
    simp [h0, hall]

/-- Witness for C10: skills omitted (None), required skills whatsapp. -/
theorem login_default_skills_witness :
    ((none : Option (List String)) = none ∨
        (none : Option (List String)) = some []) ∧
    agentSkills c10store "a9" = ["voice", "whatsapp"] ∧
    (candidateOf c10store (some ["whatsapp"]) "a9").isSome = true :=
  ⟨Or.inl rfl,
   (login_default_skills initStore "a9" "Noa" none none (Or.inl rfl)).1,
   (login_default_skills initStore "a9" "Noa" none none (Or.inl rfl)).2
     ["whatsapp"] (by decide)⟩

/-! ### C3: invalid sentiment input rejected without mutation -/

/-- C3: record_sentiment with an unknown department code or a score
outside [-1, 1] fails with the ValueError before touching the store: the
returned state is the input state, so every department's sum, count,
cached average and history are unchanged. -/
theorem record_invalid_no_mutation (s : SentState) (d : String) (q : ℚ)
    (m : Option Meta) (h : d ∉ PARAGUAY_DEPARTMENTS ∨ q < -1 ∨ 1 < q) :
    (∃ msg, (recordSentiment s d q m).2 = Except.error msg) ∧
    (recordSentiment s d q m).1 = s ∧
    ∀ dd, sumOf ((recordSentiment s d q m).1) dd = sumOf s dd ∧
      countOf ((recordSentiment s d q m).1) dd = countOf s dd ∧
      currentOf ((recordSentiment s d q m).1) dd = currentOf s dd ∧
      histOf ((recordSentiment s d q m).1) dd = histOf s dd := by
  by_cases hd : d ∈ PARAGUAY_DEPARTMENTS
  · have hq : q < -1 ∨ 1 < q := by
      rcases h with h1 | h1
      · exact absurd hd h1
      · exact h1
    have hrange : ¬(-1 ≤ q ∧ q ≤ 1) := by
      rcases hq with h1 | h1 <;> intro hc <;> rcases hc with ⟨hc1, hc2⟩ <;> linarith
    have heq : recordSentiment s d q m
        = (s, Except.error "Sentiment score must be between -1 and 1") := by
      simp [recordSentiment, hd, hrange]
    rw [heq]
    exact ⟨⟨_, rfl⟩, rfl, fun dd => ⟨rfl, rfl, rfl, rfl⟩⟩
  · have heq : recordSentiment s d q m
        = (s, Except.error ("Invalid department ID: " ++ d)) := by
      simp [recordSentiment, hd]
    rw [heq]
    exact ⟨⟨_, rfl⟩, rfl, fun dd => ⟨rfl, rfl, rfl, rfl⟩⟩

/-- Witness for C3 at Scenario E: an invalid region code with an
in-range score is rejected and mutates nothing. -/
theorem record_invalid_no_mutation_witness :
    ("PY-XX" ∉ PARAGUAY_DEPARTMENTS ∨ (1/10 : ℚ) < -1 ∨ 1 < (1/10 : ℚ)) ∧
    (∃ msg, (recordSentiment initSent "PY-XX" (1/10) none).2
      = Except.error msg) ∧
    (recordSentiment initSent "PY-XX" (1/10) none).1 = initSent :=
  ⟨Or.inl (by decide),
   (record_invalid_no_mutation initSent "PY-XX" (1/10) none
     (Or.inl (by decide))).1,
   (record_invalid_no_mutation initSent "PY-XX" (1/10) none
     (Or.inl (by decide))).2.1⟩

/-! ### C7: average equals rounded sum / count -/

/-- Full evaluation of record_sentiment on the valid path. -/
theorem recordSentiment_valid_eq (s : SentState) (d : String) (q : ℚ)
    (m : Option Meta) (hd : d ∈ PARAGUAY_DEPARTMENTS)
    (h1 : -1 ≤ q) (h2 : q ≤ 1) :
    recordSentiment s d q m =
      ({ sums := setK s.sums d (sumOf s d + q)
         counts := setK s.counts d (countOf s d + 1)
         current := setK s.current d
           (round4 ((sumOf s d + q) / ((countOf s d + 1 : Nat) : ℚ)))
         histories := setK s.histories d
           (({ score := q, timestamp := s.time, metadata := m }
             :: histOf s d).take MAX_HISTORY)
         updates := s.updates ++
           [{ departmentId := d, sentimentScore := q
              average := round4 ((sumOf s d + q) / ((countOf s d + 1 : Nat) : ℚ))
              totalCount := countOf s d + 1, timestamp := s.time
              metadata := m }]
         time := s.time + 1 },
       Except.ok
         { departmentId := d, sentimentScore := q
           average := round4 ((sumOf s d + q) / ((countOf s d + 1 : Nat) : ℚ))
           totalCount := countOf s d + 1, timestamp := s.time
           metadata := m }) := by
  have hnotin : ¬d ∉ PARAGUAY_DEPARTMENTS := not_not_intro hd
  have hr : ¬¬(-1 ≤ q ∧ q ≤ 1) := not_not_intro ⟨h1, h2⟩
  simp only [recordSentiment, if_neg hnotin, if_neg hr]
  rw [if_pos (by omega : countOf s d + 1 > 0)]

/-- C7: after a valid record, the returned payload carries an average
equal to the post-state running sum divided by the post-state count
rounded to 4 decimals, the denormalized current-average cache holds that
same value, and the count is the previous count plus one. -/
theorem record_average_consistency (s : SentState) (d : String) (q : ℚ)
    (m : Option Meta) (hd : d ∈ PARAGUAY_DEPARTMENTS)
    (h1 : -1 ≤ q) (h2 : q ≤ 1) :
    ∃ u : UpdateData, (recordSentiment s d q m).2 = Except.ok u ∧
      u.average = round4 (sumOf ((recordSentiment s d q m).1) d
        / (countOf ((recordSentiment s d q m).1) d : ℚ)) ∧
      currentOf ((recordSentiment s d q m).1) d = some u.average ∧
      u.totalCount = countOf ((recordSentiment s d q m).1) d ∧
      countOf ((recordSentiment s d q m).1) d = countOf s d + 1 := by
  rw [recordSentiment_valid_eq s d q m hd h1 h2]
  refine ⟨_, rfl, ?_, ?_, ?_, ?_⟩
  · simp [sumOf, countOf, getK_setK_self]
  · simp [currentOf, getK_setK_self]
  · simp [countOf, getK_setK_self]
  · simp [countOf, getK_setK_self]

/-- Witness for C7 at Scenario C: recording 0.5 then -0.5 for PY-ASU
gives a cached average of exactly 0 with count 2. -/
theorem record_average_consistency_witness :
    ("PY-ASU" ∈ PARAGUAY_DEPARTMENTS ∧ (-1 : ℚ) ≤ -1/2 ∧ (-1/2 : ℚ) ≤ 1) ∧
    (∃ u : UpdateData,
      (recordSentiment c7s1 "PY-ASU" (-1/2) none).2 = Except.ok u ∧
      u.average = round4 (sumOf ((recordSentiment c7s1 "PY-ASU" (-1/2) none).1)
          "PY-ASU"
        / (countOf ((recordSentiment c7s1 "PY-ASU" (-1/2) none).1) "PY-ASU" : ℚ)) ∧
      currentOf ((recordSentiment c7s1 "PY-ASU" (-1/2) none).1) "PY-ASU"
        = some u.average ∧
      u.totalCount = countOf ((recordSentiment c7s1 "PY-ASU" (-1/2) none).1)
          "PY-ASU" ∧
      countOf ((recordSentiment c7s1 "PY-ASU" (-1/2) none).1) "PY-ASU"
        = countOf c7s1 "PY-ASU" + 1) ∧
    currentOf ((recordSentiment c7s1 "PY-ASU" (-1/2) none).1) "PY-ASU"
      = some 0 ∧
    countOf ((recordSentiment c7s1 "PY-ASU" (-1/2) none).1) "PY-ASU" = 2 := by
  have hd : "PY-ASU" ∈ PARAGUAY_DEPARTMENTS := by decide
  have ha1 : (-1 : ℚ) ≤ -1/2 := by norm_num
  have ha2 : (-1/2 : ℚ) ≤ 1 := by norm_num
  have hmain := record_average_consistency c7s1 "PY-ASU" (-1/2) none hd ha1 ha2
  have hs : sumOf c7s1 "PY-ASU" = 1/2 := by
    show sumOf ((recordSentiment initSent "PY-ASU" (1/2) none).1) "PY-ASU" = 1/2
    rw [recordSentiment_valid_eq initSent "PY-ASU" (1/2) none hd
      (by norm_num) (by norm_num)]
    simp [sumOf, getK_setK_self, initSent, getK]
  have hc : countOf c7s1 "PY-ASU" = 1 := by
    show countOf ((recordSentiment initSent "PY-ASU" (1/2) none).1) "PY-ASU" = 1
    rw [recordSentiment_valid_eq initSent "PY-ASU" (1/2) none hd
      (by norm_num) (by norm_num)]
    simp [countOf, getK_setK_self, initSent, getK]
  have hcur : currentOf ((recordSentiment c7s1 "PY-ASU" (-1/2) none).1)
      "PY-ASU" = some 0 := by
    rw [recordSentiment_valid_eq c7s1 "PY-ASU" (-1/2) none hd ha1 ha2]
    simp only [currentOf, getK_setK_self]
    rw [hs, hc]
    norm_num [round4]
  have hcount : countOf ((recordSentiment c7s1 "PY-ASU" (-1/2) none).1)
      "PY-ASU" = 2 := by
    rw [recordSentiment_valid_eq c7s1 "PY-ASU" (-1/2) none hd ha1 ha2]
    simp only [countOf, getK_setK_self, Option.getD_some]
    have hc2 : (getK c7s1.counts "PY-ASU").getD 0 = 1 := hc
    omega
  exact ⟨⟨hd, ha1, ha2⟩, hmain, hcur, hcount⟩

/-! ### C9: bounded history reads -/

theorem lrange_zero_of_one_le {α : Type} (l : List α) (limit : Int)
    (h : 1 ≤ limit) : lrange l 0 (limit - 1) = l.take limit.toNat := by
  simp only [lrange]
  rw [if_neg (by omega : ¬(0 : Int) < 0), if_neg (by omega : ¬limit - 1 < 0)]
  by_cases hcase : (l.length : Int) - 1 ≤ limit - 1
  · rw [min_eq_right hcase]
    by_cases hz : l.length = 0
    · rw [if_pos (by omega)]
      have hl : l = [] := List.length_eq_zero.1 hz
      subst hl
      simp
    · rw [if_neg (by omega)]
      have he : ((l.length : Int) - 1).toNat + 1 = l.length := by omega
      rw [he]
      simp only [Int.toNat_zero, List.drop_zero, List.take_length]
      exact (List.take_of_length_le (by omega)).symm
  · rw [min_eq_left (by omega)]
    rw [if_neg (by omega)]
    have he : (limit - 1).toNat + 1 = limit.toNat := by omega
    rw [he]
    simp

theorem lrange_zero_neg_one {α : Type} (l : List α) :
    lrange l 0 (-1 : Int) = l := by
  simp only [lrange]
  rw [if_neg (by omega : ¬(0 : Int) < 0), if_pos (by omega : (-1 : Int) < 0)]
  have hm : (l.length : Int) + (-1) = (l.length : Int) - 1 := by ring
  rw [hm, min_self]
  by_cases hz : l.length = 0
  · rw [if_pos (by omega)]
    exact (List.length_eq_zero.1 hz).symm
  · rw [if_neg (by omega)]
    have he : ((l.length : Int) - 1).toNat + 1 = l.length := by omega
    rw [he]
    simp

/-- C9 counterexample: with one recorded PY-ASU sample in the store,
get_department_history with limit 0 returns the full one-element history
rather than an empty list (LRANGE 0 -1 selects everything). -/
theorem history_limit_zero_not_empty :
    getDepartmentHistory c9store "PY-ASU" 0 ≠ [] ∧
    (getDepartmentHistory c9store "PY-ASU" 0).length = 1 := by
  have hh : histOf c9store "PY-ASU"
      = [{ score := 1/2, timestamp := 0, metadata := none }] := by
    show histOf ((recordSentiment initSent "PY-ASU" (1/2) none).1) "PY-ASU" = _
    rw [recordSentiment_valid_eq initSent "PY-ASU" (1/2) none (by decide)
      (by norm_num) (by norm_num)]
    simp only [histOf, getK_setK_self, Option.getD_some]
    have h2 : (getK initSent.histories "PY-ASU").getD [] = ([] : List Sample) :=
      rfl
    rw [h2, List.take_of_length_le (by norm_num [MAX_HISTORY])]
    rfl
  have h0 : getDepartmentHistory c9store "PY-ASU" 0
      = histOf c9store "PY-ASU" := by
    show lrange (histOf c9store "PY-ASU") 0 (0 - 1) = _
    have he : (0 : Int) - 1 = -1 := by ring
    rw [he]
    exact lrange_zero_neg_one _
  rw [h0, hh]
  exact ⟨by simp, rfl⟩

/-- C9 amended: for limit ≥ 1 get_department_history returns the first
limit entries of the region's newest-first stored history, hence at most
limit entries; for limit = 0 the stop index limit - 1 = -1 makes Redis
LRANGE select the entire list, so the full history is returned instead of
an empty one. -/
theorem history_bounded_or_full (s : SentState) (d : String) (limit : Int) :
    (1 ≤ limit →
      getDepartmentHistory s d limit = (histOf s d).take limit.toNat ∧
      (getDepartmentHistory s d limit).length ≤ limit.toNat) ∧
    (limit = 0 → getDepartmentHistory s d limit = histOf s d) := by
  constructor
  · intro h
    have heq := lrange_zero_of_one_le (histOf s d) limit h
    constructor
    · exact heq
    · simp only [getDepartmentHistory]
      rw [heq, List.length_take]
      exact Nat.min_le_left _ _
  · intro h0
    subst h0
    show lrange (histOf s d) 0 (0 - 1) = histOf s d
    have : (0 : Int) - 1 = -1 := by ring
    rw [this]
    exact lrange_zero_neg_one (histOf s d)

/-- Witness for C9 amended, at limit 1 on the one-sample store. -/
theorem history_bounded_or_full_witness :
    (1 ≤ (1 : Int)) ∧
    getDepartmentHistory c9store "PY-ASU" 1
      = (histOf c9store "PY-ASU").take (1 : Int).toNat ∧
    (getDepartmentHistory c9store "PY-ASU" 1).length ≤ (1 : Int).toNat :=
  ⟨by decide,
   ((history_bounded_or_full c9store "PY-ASU" 1).1 (by decide)).1,
   ((history_bounded_or_full c9store "PY-ASU" 1).1 (by decide)).2⟩

end VoxPY
